import Mathlib

/-!
A verification development for the `eos` build-graph generator.

The Rust sources (`src/ninja.rs`, `src/spec.rs`, `src/util.rs`, `src/main.rs`)
are shallowly embedded below.  Paths (`std::path::PathBuf`) are modelled as
lists of components; the program only ever constructs relative paths (the walk
starts at the relative root `usr/src` and description files declare relative
sources), and pushing a path that begins with a separator replaces the
receiver, as `PathBuf::push` does.  External effects — the `gcc-10` process
spawned for header discovery, the TOML parser, and the directory walk — are
modelled as explicit inputs: a function from source path to captured process
output, a function from description-file path to parse result, and a file-tree
value whose unreadable directories carry the raw OS error text.
-/

namespace Eos

/-- The `VERSION` constant from `main.rs`. -/
def VERSION : String := "5.11"

/-- A single-quote character, used when spelling out shell command text. -/
def sq : String := String.singleton (Char.ofNat 39)

/-! ### Path model (`std::path::PathBuf`, relative paths) -/

/-- Split a path string into its non-empty components. -/
def pathComps (s : String) : List String :=
  ((s.data.splitOn (Char.ofNat 47)).filter (fun c => c ≠ [])).map (fun c => String.mk c)

/-- Whether a path string is absolute (begins with a separator). -/
def isAbsStr (s : String) : Bool :=
  match s.data with
  | [] => false
  | c :: _ => c = Char.ofNat 47

/-- A `PathBuf`, as its list of components. -/
abbrev PathBuf := List String

/-- `PathBuf::push` with a string argument: an absolute argument replaces the
receiver, a relative one is appended component-wise. -/
def PathBuf.push (p : PathBuf) (s : String) : PathBuf :=
  if isAbsStr s then pathComps s else p ++ pathComps s

/-- `PathBuf::push` with an (always relative, in this program) `PathBuf`
argument. -/
def PathBuf.pushBuf (p q : PathBuf) : PathBuf := p ++ q

/-- `PathBuf::pop`: truncate to the parent by dropping the last component. -/
def PathBuf.pop (p : PathBuf) : PathBuf := p.dropLast

/-- `Path::to_str` on a relative path: components joined by the separator. -/
def PathBuf.toStr (p : PathBuf) : String :=
  String.intercalate (String.singleton (Char.ofNat 47)) p

/-! ### `ninja.rs`: the ninja build specification -/

namespace Ninja

/-- A ninja variable (`ninja.rs`, `struct Variable`). -/
structure Variable where
  name : String
  value : String
deriving DecidableEq, Repr

/-- `Variable::emit`: `{name} = {value}\n`. -/
def Variable.emit (v : Variable) : String :=
  v.name ++ " = " ++ v.value ++ "\n"

/-- A ninja rule definition (`ninja.rs`, `struct RuleDefinition`). -/
structure RuleDefinition where
  name : String
  command : String
deriving DecidableEq, Repr

/-- `RuleDefinition::emit`: `rule {name}\n  command = {command}\n`. -/
def RuleDefinition.emit (r : RuleDefinition) : String :=
  "rule " ++ r.name ++ "\n  command = " ++ r.command ++ "\n"

/-- A ninja build statement (`ninja.rs`, `struct BuildStatement`), with the
`Default` field values of the Rust derive. -/
structure BuildStatement where
  input : String := ""
  output : String := ""
  rule : String := ""
  /-- The Rust field is named `variables`; that word is reserved in Lean. -/
  vars : List Variable := []
  implicit_deps : List String := []
deriving DecidableEq, Repr

instance : Inhabited BuildStatement := ⟨{}⟩

/-- `BuildStatement::emit`: the `build {output}: {rule} {input}\n` line, then
one indented line per statement variable.  (The `implicit_deps` field is not
consulted.) -/
def BuildStatement.emit (b : BuildStatement) : String :=
  b.vars.foldl (fun s d => s ++ "  " ++ d.emit)
    ("build " ++ b.output ++ ": " ++ b.rule ++ " " ++ b.input ++ "\n")

/-- The `Rules` enumeration from `ninja.rs`. -/
inductive Rules where
  | ModCompile
  | ModLink
  | GenunixLink
deriving DecidableEq, Repr

/-- `impl ToString for Rules`. -/
def Rules.toString : Rules → String
  | Rules.ModCompile => "cc_kernel"
  | Rules.ModLink => "ld_kmod"
  | Rules.GenunixLink => "ld_genunix"

/-- A ninja build specification (`ninja.rs`, `struct Spec`). -/
structure Spec where
  /-- The Rust field is named `variables`; that word is reserved in Lean. -/
  vars : List Variable := []
  rules : List RuleDefinition := []
  statements : List BuildStatement := []
deriving DecidableEq, Repr

/-- `Spec::kernel_cflags`: the joined compile-flag string. -/
def Spec.kernel_cflags : String :=
  String.intercalate " "
    ["-std=gnu99", "-O3", "-g", "-gdwarf-2", "-gstrict-dwarf", "-m64",
     "-mcmodel=kernel", "-mindirect-branch-register",
     "-mindirect-branch=thunk-extern", "-mno-mmx", "-mno-red-zone",
     "-mno-sse", "-msave-args", "-D__sun", "-D__SVR4", "-D_ASM_INLINES",
     "-D_DDI_STRICT", "-D_ELF64", "-D_KERNEL", "-D_MACHDEP", "-D_SYSCALL32",
     "-D_SYSCALL32_IMPL", "-Dlint", "-Dsun", "-U__i386", "-Ui386",
     "-Iusr/src/uts/intel", "-Iusr/src/uts/common", "-Iusr/src/common",
     "-Iusr/src/uts/i86pc", "-Iusr/src/uts/common/fs/zfs", "-ffreestanding",
     "-fno-inline-small-functions", "-fno-inline-functions-called-once",
     "-fno-ipa-cp", "-fno-ipa-icf", "-fno-clone-functions",
     "-fno-reorder-functions", "-fno-reorder-blocks-and-partition",
     "-fno-aggressive-loop-optimizations", "-fno-shrink-wrap",
     "-fno-asynchronous-unwind-tables", "-fstack-protector-strong",
     "-fdiagnostics-color=always", "--param=max-inline-insns-single=450"]

/-- `Spec::kernel_ldflags`. -/
def Spec.kernel_ldflags : String :=
  String.intercalate " " ["-ztype=kmod"]

/-- `Spec::init_variables`: push the two base variables. -/
def Spec.init_variables (s : Spec) : Spec :=
  { s with vars := s.vars ++
      [{ name := "kernel_cflags", value := Spec.kernel_cflags },
       { name := "kernel_ldflags", value := Spec.kernel_ldflags }] }

/-- `Spec::init_rules`: push the three rule definitions. -/
def Spec.init_rules (s : Spec) : Spec :=
  { s with rules := s.rules ++
      [{ name := Rules.toString Rules.ModCompile,
         command := String.intercalate " && "
           ["gcc-10 $kernel_cflags -c $in -o $out",
            "ctfconvert -X -l " ++ sq ++ "5.11" ++ sq ++ " $out",
            "strip $out"] },
       { name := Rules.toString Rules.ModLink,
         command := String.intercalate " && "
           ["ld $kernel_ldflags $mod_deps -o $out $in",
            "ctfmerge -l " ++ sq ++ VERSION ++ sq ++
              " -d bld/genunix -o $out $in"] },
       { name := Rules.toString Rules.GenunixLink,
         command := String.intercalate " && "
           ["ld $kernel_ldflags -o $out $in",
            "ctfmerge -l " ++ sq ++ VERSION ++ sq ++ " -o $out $in"] }] }

/-- `Spec::init` followed by `Spec::new`: default value, rules, variables. -/
def Spec.new : Spec :=
  Spec.init_variables (Spec.init_rules {})

/-- `Spec::emit_variables`. -/
def Spec.emit_variables (s : Spec) : String :=
  s.vars.foldl (fun acc d => acc ++ d.emit) ""

/-- `Spec::emit_rules`. -/
def Spec.emit_rules (s : Spec) : String :=
  s.rules.foldl (fun acc r => acc ++ r.emit) ""

/-- `Spec::emit_statements`. -/
def Spec.emit_statements (s : Spec) : String :=
  s.statements.foldl (fun acc stmt => acc ++ stmt.emit) ""

/-- `Spec::emit`: variables, then rules, then build statements. -/
def Spec.emit (s : Spec) : String :=
  s.emit_variables ++ s.emit_rules ++ s.emit_statements

end Ninja

/-! ### `util.rs`: path mapping, header discovery, directory walk -/

/-- `str::strip_suffix(".c")`: if the string ends in `.c`, the string with
those two characters removed. -/
def strip_suffix_c (s : String) : Option String :=
  if ".c".data.isSuffixOf s.data then some (String.mk s.data.dropLast.dropLast)
  else none

/-- `object_source_map` from `util.rs`: for each declared source, pair the
source path (description directory ++ declaration) with the object path
(`bld` ++ description directory ++ declaration with `.c` rewritten to `.o`);
a declaration without the `.c` suffix aborts with an error naming it. -/
def object_source_map (base_path : PathBuf) :
    List String → Except String (List (PathBuf × PathBuf))
  | [] => Except.ok []
  | s :: rest =>
    match strip_suffix_c s with
    | none => Except.error (s ++ ": expected c source file")
    | some pre =>
      let out := pre ++ ".o"
      let in_path := PathBuf.push (PathBuf.pop base_path) s
      let out_path :=
        PathBuf.push
          (PathBuf.pop (PathBuf.pushBuf (PathBuf.push [] "bld") base_path))
          out
      match object_source_map base_path rest with
      | Except.error e => Except.error e
      | Except.ok objs => Except.ok ((in_path, out_path) :: objs)

/-- The captured output of one external `gcc-10` invocation: its exit status
and the text it wrote to stderr. -/
structure ProcOutput where
  success : Bool
  stderrText : String
deriving DecidableEq, Repr

/-- `str::lines`: split on newlines, dropping a final empty segment and one
trailing carriage return per line. -/
def rustLines (s : String) : List String :=
  let parts := s.data.splitOn (Char.ofNat 10)
  let parts :=
    match parts.getLast? with
    | some [] => parts.dropLast
    | _ => parts
  parts.map (fun l =>
    String.mk (if l.getLast? = some (Char.ofNat 13) then l.dropLast else l))

/-- `str::starts_with('.')` on a line. -/
def startsWithDot (s : String) : Bool :=
  match s.data with
  | [] => false
  | c :: _ => c = Char.ofNat 46

/-- `str::trim_start_matches('.')`: remove every leading dot. -/
def trimStartDots (s : String) : String :=
  String.mk (s.data.dropWhile (fun c => c = Char.ofNat 46))

/-- The line scan of `header_deps`: lines not beginning with a dot are
skipped (`continue`), every other line is pushed with its leading dots
stripped, in line order. -/
def collectDeps : List String → List String
  | [] => []
  | line :: rest =>
    if !startsWithDot line then collectDeps rest
    else trimStartDots line :: collectDeps rest

/-- `header_deps` from `util.rs`, as a function of the captured output of the
`gcc-10 -H -fsyntax-only` invocation: a non-zero exit status is an error
carrying the stderr text; on success the stderr lines are scanned by
`collectDeps`. -/
def header_deps (result : ProcOutput) : Except String (List String) :=
  if !result.success then
    Except.error
      ("using gcc to determine header deps failed: " ++ result.stderrText)
  else
    Except.ok (collectDeps (rustLines result.stderrText))

/-- `object_build_statements` from `util.rs`: one compile statement per
source/object pair, in map order, with the discovered headers as implicit
dependencies.  The `gcc` argument models the external process launched per
source file (the compile flags are the constant `kernel_cflags`, so the
captured output is a function of the source path alone).  The Rust code
unwraps the `header_deps` result inside the parallel map — a resolver error
panics and aborts the run — modelled here as error propagation. -/
def object_build_statements (gcc : String → ProcOutput) :
    List (PathBuf × PathBuf) → Except String (List Ninja.BuildStatement)
  | [] => Except.ok []
  | (src, obj) :: rest =>
    match header_deps (gcc (PathBuf.toStr src)) with
    | Except.error e => Except.error e
    | Except.ok deps =>
      match object_build_statements gcc rest with
      | Except.error e => Except.error e
      | Except.ok stmts =>
        Except.ok
          ({ input := PathBuf.toStr src
             output := PathBuf.toStr obj
             rule := Ninja.Rules.toString Ninja.Rules.ModCompile
             vars := []
             implicit_deps := deps } :: stmts)

/-- A file-system tree as seen by the directory walk in `util.rs`.  An
`unreadableDir` is a directory whose `read_dir` fails; it carries the raw OS
error text (Rust `std::io::Error` from `read_dir` does not include the
path). -/
inductive FsTree where
  | file (name : String)
  | symlink (name : String)
  | dir (name : String) (entries : List FsTree)
  | unreadableDir (name : String) (err : String)

mutual

/-- The body of `find_build_files_rec` from `util.rs`, dispatched on one
directory entry: symlinks are skipped, directories are recursed into (reading
an unreadable directory propagates the raw OS error via `?`), and a file named
`build.toml` is recorded at its path. -/
def find_build_files_rec (path : PathBuf) :
    FsTree → Except String (List PathBuf)
  | FsTree.symlink _ => Except.ok []
  | FsTree.file name =>
    if name = "build.toml" then Except.ok [path ++ [name]] else Except.ok []
  | FsTree.unreadableDir _ err => Except.error err
  | FsTree.dir name entries => walkEntries (path ++ [name]) entries

/-- Iterate `find_build_files_rec` over the entries of one directory,
concatenating results in entry order and stopping at the first error. -/
def walkEntries (path : PathBuf) :
    List FsTree → Except String (List PathBuf)
  | [] => Except.ok []
  | e :: rest =>
    match find_build_files_rec path e with
    | Except.error err => Except.error err
    | Except.ok found =>
      match walkEntries path rest with
      | Except.error err => Except.error err
      | Except.ok more => Except.ok (found ++ more)

end

/-- `find_build_files` from `util.rs`: walk the tree rooted at `path`.  The
root value models the directory at `path` itself, whose entries are read
first; a non-directory root is a `read_dir` failure. -/
def find_build_files (path : PathBuf) (root : FsTree) :
    Except String (List PathBuf) :=
  match root with
  | FsTree.dir _ entries => walkEntries path entries
  | FsTree.unreadableDir _ err => Except.error err
  | _ => Except.error "Not a directory (os error 20)"

/-! ### `spec.rs`: build descriptions -/

/-- A kernel-module build description (`spec.rs`, `struct Module`). -/
structure Module where
  name : String
  src : List String
  dependencies : List String := []
deriving DecidableEq, Repr

/-- `Module::to_ninja`: per-source compile statements followed by one link
statement whose inputs are the object paths, whose output is
`bld/modules/{name}`, whose rule is the module-link rule, whose variables hold
the `-N` dependency flags when the dependency list is non-empty, and whose
implicit dependencies are exactly `bld/genunix`. -/
def Module.to_ninja (m : Module) (gcc : String → ProcOutput)
    (path : PathBuf) : Except String (List Ninja.BuildStatement) :=
  match object_source_map path m.src with
  | Except.error e => Except.error e
  | Except.ok osm =>
    match object_build_statements gcc osm with
    | Except.error e => Except.error e
    | Except.ok stmts =>
      let mod_deps : List Ninja.Variable :=
        if m.dependencies.isEmpty then []
        else
          [{ name := "mod_deps"
             value := String.intercalate " "
               (m.dependencies.map (fun x => "-N" ++ x)) }]
      Except.ok (stmts ++
        [{ input := String.intercalate " "
             (osm.map (fun p => PathBuf.toStr p.2))
           output := "bld/modules/" ++ m.name
           rule := Ninja.Rules.toString Ninja.Rules.ModLink
           vars := mod_deps
           implicit_deps := ["bld/genunix"] }])

/-- The genunix build description (`spec.rs`, `struct Genunix`). -/
structure Genunix where
  src : List String
deriving DecidableEq, Repr

/-- `Genunix::to_ninja`: per-source compile statements followed by one link
statement for `bld/genunix` using the module-link rule, with the defaulted
(empty) variable and implicit-dependency lists. -/
def Genunix.to_ninja (g : Genunix) (gcc : String → ProcOutput)
    (path : PathBuf) : Except String (List Ninja.BuildStatement) :=
  match object_source_map path g.src with
  | Except.error e => Except.error e
  | Except.ok osm =>
    match object_build_statements gcc osm with
    | Except.error e => Except.error e
    | Except.ok stmts =>
      Except.ok (stmts ++
        [{ input := String.intercalate " "
             (osm.map (fun p => PathBuf.toStr p.2))
           output := "bld/genunix"
           rule := Ninja.Rules.toString Ninja.Rules.ModLink
           vars := []
           implicit_deps := [] }])

/-- An Eos build specification (`spec.rs`, `enum Spec`). -/
inductive Spec where
  | Genunix (g : Genunix)
  | Module (m : Module)
deriving DecidableEq, Repr

/-- `Spec::to_ninja`: dispatch to the variant. -/
def Spec.to_ninja (sp : Spec) (gcc : String → ProcOutput)
    (path : PathBuf) : Except String (List Ninja.BuildStatement) :=
  match sp with
  | Spec.Genunix x => x.to_ninja gcc path
  | Spec.Module x => x.to_ninja gcc path

/-- The source list a build description declares. -/
def Spec.sources : Spec → List String
  | Spec.Genunix x => x.src
  | Spec.Module x => x.src

/-! ### `main.rs`: the run -/

/-- The statement-collection loop of `run` in `main.rs`: for each discovered
build file in order, parse it (`read_spec`, modelled by the `parse` oracle)
and extend the statement list with its emitted statements; the first error
aborts. -/
def collectStatements (parse : PathBuf → Except String Spec)
    (gcc : String → ProcOutput) :
    List PathBuf → Except String (List Ninja.BuildStatement)
  | [] => Except.ok []
  | p :: rest =>
    match parse p with
    | Except.error e => Except.error e
    | Except.ok sp =>
      match Spec.to_ninja sp gcc p with
      | Except.error e => Except.error e
      | Except.ok stmts =>
        match collectStatements parse gcc rest with
        | Except.error e => Except.error e
        | Except.ok more => Except.ok (stmts ++ more)

/-- `run` from `main.rs`: discover build files under `usr/src`, accumulate
every description's statements into a fresh ninja spec, and emit it.  The
returned string is the text written to `build.ninja`; an error means the run
aborts and no artifact is produced. -/
def run (root : FsTree) (parse : PathBuf → Except String Spec)
    (gcc : String → ProcOutput) : Except String String :=
  match find_build_files ["usr", "src"] root with
  | Except.error e => Except.error e
  | Except.ok build_files =>
    match collectStatements parse gcc build_files with
    | Except.error e => Except.error e
    | Except.ok stmts =>
      Except.ok (Ninja.Spec.emit { Ninja.Spec.new with statements := stmts })

/-! ### Closed forms of the successful computations -/

/-- The pair `object_source_map` produces for one declared source. -/
def objPair (base : PathBuf) (s : String) : PathBuf × PathBuf :=
  (PathBuf.push (PathBuf.pop base) s,
   PathBuf.push (PathBuf.pop (PathBuf.pushBuf (PathBuf.push [] "bld") base))
     (((strip_suffix_c s).getD "") ++ ".o"))

/-- The compile statement `object_build_statements` produces for one
source/object pair. -/
def compileStmt (gcc : String → ProcOutput) (p : PathBuf × PathBuf) :
    Ninja.BuildStatement :=
  { input := PathBuf.toStr p.1
    output := PathBuf.toStr p.2
    rule := Ninja.Rules.toString Ninja.Rules.ModCompile
    vars := []
    implicit_deps := (header_deps (gcc (PathBuf.toStr p.1))).toOption.getD [] }

/-- The link statement `Module::to_ninja` appends. -/
def moduleLinkStmt (m : Module) (osm : List (PathBuf × PathBuf)) :
    Ninja.BuildStatement :=
  { input := String.intercalate " " (osm.map (fun p => PathBuf.toStr p.2))
    output := "bld/modules/" ++ m.name
    rule := Ninja.Rules.toString Ninja.Rules.ModLink
    vars :=
      if m.dependencies.isEmpty then []
      else
        [{ name := "mod_deps"
           value := String.intercalate " "
             (m.dependencies.map (fun x => "-N" ++ x)) }]
    implicit_deps := ["bld/genunix"] }

/-- The link statement `Genunix::to_ninja` appends. -/
def genunixLinkStmt (osm : List (PathBuf × PathBuf)) : Ninja.BuildStatement :=
  { input := String.intercalate " " (osm.map (fun p => PathBuf.toStr p.2))
    output := "bld/genunix"
    rule := Ninja.Rules.toString Ninja.Rules.ModLink
    vars := []
    implicit_deps := [] }

/-- The indented per-statement variable lines of one emitted build
statement. -/
def varLines : List Ninja.Variable → String
  | [] => ""
  | v :: rest => "  " ++ v.emit ++ varLines rest

/-- Clear a statement's implicit-dependency field. -/
def wipeImplicitDeps (b : Ninja.BuildStatement) : Ninja.BuildStatement :=
  { b with implicit_deps := [] }

/-- Whether `needle` occurs contiguously inside `hay` (used to state that an
error message does or does not mention a path). -/
def containsSeq (needle : List Char) : List Char → Bool
  | [] => needle.isPrefixOf []
  | c :: rest => needle.isPrefixOf (c :: rest) || containsSeq needle rest

/-! ### Concrete inputs used to exercise the theorems -/

/-- A gcc oracle whose every invocation succeeds, with a fixed diagnostic
stream containing two include lines and one noise line. -/
def gccOk : String → ProcOutput :=
  fun _ => { success := true, stderrText := ". x.h\nnoise\n.. y.h" }

/-- A gcc oracle whose every invocation exits non-zero with diagnostic
`boom`. -/
def gccFail : String → ProcOutput :=
  fun _ => { success := false, stderrText := "boom" }

/-- A description-file path as discovery would produce it. -/
def demoPath : PathBuf := ["usr", "src", "drv", "build.toml"]

/-- A module description with two declared dependencies. -/
def demoModule : Module :=
  { name := "drv", src := ["b.c"], dependencies := ["a", "b"] }

/-- A module description with no dependencies. -/
def demoModuleNoDeps : Module :=
  { name := "drv", src := ["b.c"], dependencies := [] }

/-- A genunix description. -/
def demoGenunix : Genunix := { src := ["a.c"] }

/-- A root tree for `usr/src` holding one build file. -/
def demoTree : FsTree := FsTree.dir "src" [FsTree.file "build.toml"]

/-- A parse oracle returning the dependency-free module for every build
file. -/
def demoParse : PathBuf → Except String Spec :=
  fun _ => Except.ok (Spec.Module demoModuleNoDeps)

/-- A module description declaring a non-C source. -/
def demoBadModule : Module :=
  { name := "m", src := ["nope.txt"], dependencies := [] }

theorem object_source_map_ok {base : PathBuf} {src : List String}
    {osm : List (PathBuf × PathBuf)}
    (h : object_source_map base src = Except.ok osm) :
    osm = src.map (objPair base) := by
  induction src generalizing osm with
  | nil =>
    simp only [object_source_map, Except.ok.injEq] at h
    simp [← h]
  | cons s rest ih =>
    simp only [object_source_map] at h
    cases hs : strip_suffix_c s with
    | none => rw [hs] at h; exact absurd h (by simp)
    | some pre =>
      rw [hs] at h
      cases hr : object_source_map base rest with
      | error e => rw [hr] at h; exact absurd h (by simp)
      | ok objs =>
        rw [hr] at h
        simp only [Except.ok.injEq] at h
        subst h
        simp [List.map_cons, ← ih hr, objPair, hs]

theorem object_build_statements_ok {gcc : String → ProcOutput}
    {osm : List (PathBuf × PathBuf)} {stmts : List Ninja.BuildStatement}
    (h : object_build_statements gcc osm = Except.ok stmts) :
    stmts = osm.map (compileStmt gcc) := by
  induction osm generalizing stmts with
  | nil =>
    simp only [object_build_statements, Except.ok.injEq] at h
    simp [← h]
  | cons p rest ih =>
    obtain ⟨src, obj⟩ := p
    simp only [object_build_statements] at h
    cases hd : header_deps (gcc (PathBuf.toStr src)) with
    | error e => rw [hd] at h; exact absurd h (by simp)
    | ok deps =>
      rw [hd] at h
      cases hr : object_build_statements gcc rest with
      | error e => rw [hr] at h; exact absurd h (by simp)
      | ok more =>
        rw [hr] at h
        simp only [Except.ok.injEq] at h
        subst h
        simp [List.map_cons, ← ih hr, compileStmt, hd, Except.toOption]

theorem module_to_ninja_ok {m : Module} {gcc : String → ProcOutput}
    {path : PathBuf} {stmts : List Ninja.BuildStatement}
    (h : m.to_ninja gcc path = Except.ok stmts) :
    ∃ osm cs, object_source_map path m.src = Except.ok osm ∧
      object_build_statements gcc osm = Except.ok cs ∧
      stmts = cs ++ [moduleLinkStmt m osm] := by
  simp only [Module.to_ninja] at h
  cases h1 : object_source_map path m.src with
  | error e => rw [h1] at h; exact absurd h (by simp)
  | ok osm =>
    rw [h1] at h
    dsimp only at h
    cases h2 : object_build_statements gcc osm with
    | error e => rw [h2] at h; exact absurd h (by simp)
    | ok cs =>
      rw [h2] at h
      simp only [Except.ok.injEq] at h
      exact ⟨osm, cs, rfl, h2, by simp [← h, moduleLinkStmt]⟩

theorem genunix_to_ninja_ok {g : Genunix} {gcc : String → ProcOutput}
    {path : PathBuf} {stmts : List Ninja.BuildStatement}
    (h : g.to_ninja gcc path = Except.ok stmts) :
    ∃ osm cs, object_source_map path g.src = Except.ok osm ∧
      object_build_statements gcc osm = Except.ok cs ∧
      stmts = cs ++ [genunixLinkStmt osm] := by
  simp only [Genunix.to_ninja] at h
  cases h1 : object_source_map path g.src with
  | error e => rw [h1] at h; exact absurd h (by simp)
  | ok osm =>
    rw [h1] at h
    dsimp only at h
    cases h2 : object_build_statements gcc osm with
    | error e => rw [h2] at h; exact absurd h (by simp)
    | ok cs =>
      rw [h2] at h
      simp only [Except.ok.injEq] at h
      exact ⟨osm, cs, rfl, h2, by simp [← h, genunixLinkStmt]⟩

/-! ### Emission lemmas -/

theorem foldl_emit_vars (l : List Ninja.Variable) (s : String) :
    l.foldl (fun acc d => acc ++ "  " ++ d.emit) s = s ++ varLines l := by
  induction l generalizing s with
  | nil => simp [varLines]
  | cons v rest ih =>
    rw [List.foldl_cons, ih, varLines, String.append_assoc,
      String.append_assoc, String.append_assoc]

theorem buildStatement_emit_eq (b : Ninja.BuildStatement) :
    b.emit = "build " ++ b.output ++ ": " ++ b.rule ++ " " ++ b.input ++
      "\n" ++ varLines b.vars := by
  simp [Ninja.BuildStatement.emit, foldl_emit_vars]

/-! ### Claims -/

/-- **C1.**  The text `BuildStatement::emit` writes is exactly the
`build {output}: {rule} {input}` line followed by the indented per-statement
variable lines; the `implicit_deps` field never reaches the serialized
artifact — replacing it changes neither a statement's emitted text nor the
whole build file emitted by `Spec::emit`. -/
theorem emit_omits_implicit_deps :
    (∀ b : Ninja.BuildStatement,
        b.emit = "build " ++ b.output ++ ": " ++ b.rule ++ " " ++ b.input ++
          "\n" ++ varLines b.vars) ∧
    (∀ (b : Ninja.BuildStatement) (deps : List String),
        Ninja.BuildStatement.emit { b with implicit_deps := deps } = b.emit) ∧
    (∀ s : Ninja.Spec,
        Ninja.Spec.emit
          { s with statements := s.statements.map wipeImplicitDeps } =
        s.emit) := by
  refine ⟨buildStatement_emit_eq, fun b deps => rfl, fun s => ?_⟩
  simp only [Ninja.Spec.emit, Ninja.Spec.emit_variables, Ninja.Spec.emit_rules,
    Ninja.Spec.emit_statements, List.foldl_map]
  rfl

/-- The line scan collects, in order, exactly the lines that begin with a
dot, each with its leading dots stripped. -/
theorem collectDeps_eq_filter_map (l : List String) :
    collectDeps l =
      (l.filter (fun line => startsWithDot line)).map trimStartDots := by
  induction l with
  | nil => rfl
  | cons line rest ih =>
    cases hl : startsWithDot line with
    | false => simp [collectDeps, hl, ih]
    | true => simp [collectDeps, hl, ih]

/-- **C7.**  On a successful compiler run, `header_deps` records a header
path for exactly the diagnostic lines beginning with one or more `.`
characters, stripping the dot marker, and every other line contributes
nothing. -/
theorem header_deps_line_filter (result : ProcOutput)
    (h : result.success = true) :
    header_deps result = Except.ok
      (((rustLines result.stderrText).filter
          (fun line => startsWithDot line)).map trimStartDots) := by
  simp [header_deps, h, collectDeps_eq_filter_map]

/-- **C7 witness.**  A concrete diagnostic stream: the two dot-marked lines
are recorded with their markers stripped, the noise line is dropped. -/
theorem header_deps_line_filter_witness :
    (⟨true, ". a.h\nnoise\n.. b.h"⟩ : ProcOutput).success = true ∧
      header_deps ⟨true, ". a.h\nnoise\n.. b.h"⟩ =
        Except.ok
          (((rustLines ". a.h\nnoise\n.. b.h").filter
              (fun line => startsWithDot line)).map trimStartDots) ∧
      header_deps ⟨true, ". a.h\nnoise\n.. b.h"⟩ =
        Except.ok [" a.h", " b.h"] :=
  ⟨rfl, header_deps_line_filter ⟨true, ". a.h\nnoise\n.. b.h"⟩ rfl, rfl⟩

/-- **C9 counterexample.**  A walk over `usr/src` that hits an unreadable
subdirectory `sub` fails with the raw OS error only: neither the entry name
`sub` nor the full offending path `usr/src/sub` occurs in the error text, so
the error does not name the offending path. -/
theorem discovery_error_counterexample :
    find_build_files ["usr", "src"]
        (FsTree.dir "src"
          [FsTree.unreadableDir "sub" "permission denied (os error 13)"]) =
      Except.error "permission denied (os error 13)" ∧
    containsSeq "sub".data "permission denied (os error 13)".data = false ∧
    containsSeq "usr/src/sub".data "permission denied (os error 13)".data =
      false :=
  ⟨rfl, rfl, rfl⟩

/-- **C9 (amended).**  When any directory along the walk cannot be read,
discovery fails and the run aborts, but the I/O error is the underlying OS
error propagated verbatim: no path context is attached, so the error does not
name the offending path. -/
theorem discovery_error_verbatim :
    (∀ (path : PathBuf) (name err : String),
        find_build_files_rec path (FsTree.unreadableDir name err) =
          Except.error err) ∧
    (∀ (path : PathBuf) (name err : String) (rest : List FsTree),
        walkEntries path (FsTree.unreadableDir name err :: rest) =
          Except.error err) ∧
    (∀ (path : PathBuf) (dname name err : String) (rest : List FsTree),
        find_build_files path
            (FsTree.dir dname (FsTree.unreadableDir name err :: rest)) =
          Except.error err) :=
  ⟨fun _ _ _ => rfl, fun _ _ _ _ => rfl, fun _ _ _ _ _ => rfl⟩

/-- **C2.**  Whenever a module description emits successfully, its final
(link) statement's implicit dependencies are exactly the core-image output
path `bld/genunix`; whenever the genunix description emits successfully, its
final (link) statement has no implicit dependencies and no variables. -/
theorem link_statement_implicit_deps :
    (∀ (m : Module) (gcc : String → ProcOutput) (path : PathBuf)
        (stmts : List Ninja.BuildStatement),
        m.to_ninja gcc path = Except.ok stmts →
        stmts ≠ [] ∧
          (stmts.getLastD default).implicit_deps = ["bld/genunix"] ∧
          "bld/genunix" ∈ (stmts.getLastD default).implicit_deps) ∧
    (∀ (g : Genunix) (gcc : String → ProcOutput) (path : PathBuf)
        (stmts : List Ninja.BuildStatement),
        g.to_ninja gcc path = Except.ok stmts →
        stmts ≠ [] ∧
          (stmts.getLastD default).implicit_deps = [] ∧
          (stmts.getLastD default).vars = []) := by
  constructor
  · intro m gcc path stmts hok
    obtain ⟨osm, cs, h1, h2, h3⟩ := module_to_ninja_ok hok
    subst h3
    refine ⟨by simp, ?_, ?_⟩
    · rw [List.getLastD_concat]; rfl
    · rw [List.getLastD_concat]; exact List.mem_singleton.mpr rfl
  · intro g gcc path stmts hok
    obtain ⟨osm, cs, h1, h2, h3⟩ := genunix_to_ninja_ok hok
    subst h3
    exact ⟨by simp, by rw [List.getLastD_concat]; rfl,
      by rw [List.getLastD_concat]; rfl⟩

/-- **C2 witness.**  The theorem applied to a concrete module and to the
concrete genunix description. -/
theorem link_statement_implicit_deps_witness :
    ((demoModule.to_ninja gccOk demoPath).toOption.getD [] ≠ [] ∧
      (((demoModule.to_ninja gccOk demoPath).toOption.getD []).getLastD
          default).implicit_deps = ["bld/genunix"] ∧
      "bld/genunix" ∈
        (((demoModule.to_ninja gccOk demoPath).toOption.getD []).getLastD
          default).implicit_deps) ∧
    ((demoGenunix.to_ninja gccOk demoPath).toOption.getD [] ≠ [] ∧
      (((demoGenunix.to_ninja gccOk demoPath).toOption.getD []).getLastD
          default).implicit_deps = [] ∧
      (((demoGenunix.to_ninja gccOk demoPath).toOption.getD []).getLastD
          default).vars = []) :=
  ⟨link_statement_implicit_deps.1 demoModule gccOk demoPath
      ((demoModule.to_ninja gccOk demoPath).toOption.getD []) rfl,
   link_statement_implicit_deps.2 demoGenunix gccOk demoPath
      ((demoGenunix.to_ninja gccOk demoPath).toOption.getD []) rfl⟩

/-- **C8.**  Whenever a module description emits successfully, its final
(link) statement's variables are: none when the dependency list is empty,
and exactly one `mod_deps` variable whose value joins one `-N{dep}` flag per
declared dependency with single spaces, in declaration order, otherwise. -/
theorem mod_deps_variable (m : Module) (gcc : String → ProcOutput)
    (path : PathBuf) (stmts : List Ninja.BuildStatement)
    (hok : m.to_ninja gcc path = Except.ok stmts) :
    stmts ≠ [] ∧
    (stmts.getLastD default).vars =
      (if m.dependencies.isEmpty then []
       else
         [{ name := "mod_deps"
            value := String.intercalate " "
              (m.dependencies.map (fun x => "-N" ++ x)) }]) := by
  obtain ⟨osm, cs, h1, h2, h3⟩ := module_to_ninja_ok hok
  subst h3
  exact ⟨by simp, by rw [List.getLastD_concat]; rfl⟩

/-- **C8 witness.**  For dependencies `["a", "b"]` the link statement carries
the single variable `mod_deps = -Na -Nb`; for no dependencies it carries
none. -/
theorem mod_deps_variable_witness :
    (((demoModule.to_ninja gccOk demoPath).toOption.getD []).getLastD
        default).vars = [{ name := "mod_deps", value := "-Na -Nb" }] ∧
    (((demoModuleNoDeps.to_ninja gccOk demoPath).toOption.getD []).getLastD
        default).vars = [] := by
  have h1 := mod_deps_variable demoModule gccOk demoPath
    ((demoModule.to_ninja gccOk demoPath).toOption.getD []) rfl
  have h2 := mod_deps_variable demoModuleNoDeps gccOk demoPath
    ((demoModuleNoDeps.to_ninja gccOk demoPath).toOption.getD []) rfl
  exact ⟨by rw [h1.2]; rfl, by rw [h2.2]; rfl⟩

/-- **C10.**  The genunix link statement is emitted with the module-link rule
`ld_kmod` (whose command contains `-d bld/genunix` and `$mod_deps`), not the
dedicated `ld_genunix` rule; `ld_genunix` sits in the initialized rule table
but no statement emitted by any description references it. -/
theorem genunix_uses_module_link_rule :
    (∀ (g : Genunix) (gcc : String → ProcOutput) (path : PathBuf)
        (stmts : List Ninja.BuildStatement),
        g.to_ninja gcc path = Except.ok stmts →
        stmts ≠ [] ∧ (stmts.getLastD default).rule = "ld_kmod") ∧
    Ninja.Spec.new.rules.map Ninja.RuleDefinition.name =
      ["cc_kernel", "ld_kmod", "ld_genunix"] ∧
    (∃ r ∈ Ninja.Spec.new.rules, r.name = "ld_kmod" ∧
        containsSeq "-d bld/genunix".data r.command.data = true ∧
        containsSeq "$mod_deps".data r.command.data = true) ∧
    (∀ (sp : Spec) (gcc : String → ProcOutput) (path : PathBuf)
        (stmts : List Ninja.BuildStatement) (b : Ninja.BuildStatement),
        sp.to_ninja gcc path = Except.ok stmts → b ∈ stmts →
        b.rule ≠ "ld_genunix") := by
  refine ⟨?_, rfl, ?_, ?_⟩
  · intro g gcc path stmts hok
    obtain ⟨osm, cs, h1, h2, h3⟩ := genunix_to_ninja_ok hok
    subst h3
    exact ⟨by simp, by rw [List.getLastD_concat]; rfl⟩
  · exact ⟨Ninja.Spec.new.rules.getD 1 { name := "", command := "" },
      by decide, rfl, rfl, rfl⟩
  · intro sp gcc path stmts b hok hb
    cases sp with
    | Genunix g =>
      obtain ⟨osm, cs, h1, h2, h3⟩ := genunix_to_ninja_ok hok
      subst h3
      rcases List.mem_append.mp hb with hc | hl
      · rw [object_build_statements_ok h2] at hc
        obtain ⟨p, hp, he⟩ := List.mem_map.mp hc
        rw [← he]
        show ("cc_kernel" : String) ≠ "ld_genunix"
        decide
      · rw [List.mem_singleton] at hl
        subst hl
        show ("ld_kmod" : String) ≠ "ld_genunix"
        decide
    | Module m =>
      obtain ⟨osm, cs, h1, h2, h3⟩ := module_to_ninja_ok hok
      subst h3
      rcases List.mem_append.mp hb with hc | hl
      · rw [object_build_statements_ok h2] at hc
        obtain ⟨p, hp, he⟩ := List.mem_map.mp hc
        rw [← he]
        show ("cc_kernel" : String) ≠ "ld_genunix"
        decide
      · rw [List.mem_singleton] at hl
        subst hl
        show ("ld_kmod" : String) ≠ "ld_genunix"
        decide

/-- A non-empty `dropLast` starts where the original list starts. -/
theorem head?_dropLast {α : Type} {l : List α} {c : α}
    (h : l.dropLast.head? = some c) : l.head? = some c := by
  cases l with
  | nil => simp at h
  | cons a t =>
    cases t with
    | nil => simp at h
    | cons b t2 =>
      rw [List.dropLast_cons₂] at h
      simpa using h

theorem isAbsStr_eq_false_iff {s : String} :
    isAbsStr s = false ↔ ¬s.data.head? = some (Char.ofNat 47) := by
  unfold isAbsStr
  cases hd : s.data with
  | nil => simp
  | cons c t => simp

/-- Rewriting `.c` to `.o` keeps a relative source declaration relative. -/
theorem isAbsStr_out {s pre : String} (hstrip : strip_suffix_c s = some pre)
    (habs : isAbsStr s = false) : isAbsStr (pre ++ ".o") = false := by
  have hpre : pre.data = s.data.dropLast.dropLast := by
    unfold strip_suffix_c at hstrip
    split at hstrip
    · cases hstrip; rfl
    · cases hstrip
  rw [isAbsStr_eq_false_iff] at habs ⊢
  intro hcontra
  rw [String.data_append, hpre] at hcontra
  cases hx : s.data.dropLast.dropLast with
  | nil =>
    rw [hx] at hcontra
    exact absurd hcontra (by decide)
  | cons y t =>
    rw [hx] at hcontra
    simp only [List.cons_append, List.head?_cons, Option.some.injEq]
      at hcontra
    subst hcontra
    apply habs
    apply head?_dropLast
    apply head?_dropLast
    rw [hx]
    rfl

/-- For a non-empty description-file path, the object root computed by
`object_source_map` is `bld` followed by the description's directory. -/
theorem out_root_eq {base : PathBuf} (hbase : base ≠ []) :
    PathBuf.pop (PathBuf.pushBuf (PathBuf.push [] "bld") base) =
      "bld" :: PathBuf.pop base := by
  show (PathBuf.push [] "bld" ++ base).dropLast = "bld" :: base.dropLast
  have h1 : PathBuf.push [] "bld" = ["bld"] := rfl
  rw [h1]
  cases base with
  | nil => exact absurd rfl hbase
  | cons a t =>
    cases t with
    | nil => simp
    | cons b t2 => simp [List.dropLast_cons₂]

/-- A successful `object_source_map` run found the `.c` suffix on every
declaration. -/
theorem object_source_map_ok_strip {base : PathBuf} {src : List String}
    {osm : List (PathBuf × PathBuf)}
    (h : object_source_map base src = Except.ok osm) :
    ∀ s ∈ src, ∃ pre, strip_suffix_c s = some pre := by
  induction src generalizing osm with
  | nil => simp
  | cons s rest ih =>
    simp only [object_source_map] at h
    cases hs : strip_suffix_c s with
    | none => rw [hs] at h; exact absurd h (by simp)
    | some pre =>
      rw [hs] at h
      dsimp only at h
      cases hr : object_source_map base rest with
      | error e => rw [hr] at h; exact absurd h (by simp)
      | ok objs =>
        intro t ht
        rcases List.mem_cons.mp ht with rfl | htr
        · exact ⟨pre, hs⟩
        · exact ih hr t htr

/-- **C3.**  `object_source_map` is a pure function of the description path
and the source list: a second run returns the same pairs; each source path is
the description's directory joined with the relative declaration, each object
path is `bld` followed by that directory and the declaration with `.c`
rewritten to `.o`, and every object path starts with the build-output root
`bld`. -/
theorem object_source_map_pure_mapping (base : PathBuf) (src : List String)
    (osm : List (PathBuf × PathBuf)) (hbase : base ≠ [])
    (hrel : ∀ s ∈ src, isAbsStr s = false)
    (hok : object_source_map base src = Except.ok osm) :
    (∀ osm2, object_source_map base src = Except.ok osm2 → osm2 = osm) ∧
    osm = src.map (fun s =>
      (PathBuf.pop base ++ pathComps s,
       "bld" :: (PathBuf.pop base ++
         pathComps (((strip_suffix_c s).getD "") ++ ".o")))) ∧
    (∀ p ∈ osm, p.2.head? = some "bld") := by
  have hmap : osm = src.map (fun s =>
      (PathBuf.pop base ++ pathComps s,
       "bld" :: (PathBuf.pop base ++
         pathComps (((strip_suffix_c s).getD "") ++ ".o")))) := by
    rw [object_source_map_ok hok]
    apply List.map_congr_left
    intro s hs
    obtain ⟨pre, hpre⟩ := object_source_map_ok_strip hok s hs
    have habs := hrel s hs
    have habs2 : isAbsStr (((strip_suffix_c s).getD "") ++ ".o") = false := by
      rw [hpre]
      exact isAbsStr_out hpre habs
    unfold objPair
    rw [out_root_eq hbase]
    unfold PathBuf.push
    rw [habs, habs2]
    simp
  refine ⟨fun osm2 h2 => ?_, hmap, fun p hp => ?_⟩
  · rw [hok] at h2
    injection h2 with h
    exact h.symm
  · rw [hmap] at hp
    obtain ⟨s, hsm, he⟩ := List.mem_map.mp hp
    rw [← he]
    rfl

/-- **C3 witness.**  The theorem applied to a concrete description path and
source list. -/
theorem object_source_map_pure_mapping_witness :
    ([(["usr", "src", "drv", "b.c"], ["bld", "usr", "src", "drv", "b.o"])] :
        List (PathBuf × PathBuf)) =
      ["b.c"].map (fun s =>
        (PathBuf.pop demoPath ++ pathComps s,
         "bld" :: (PathBuf.pop demoPath ++
           pathComps (((strip_suffix_c s).getD "") ++ ".o")))) ∧
    ((["usr", "src", "drv", "b.c"], ["bld", "usr", "src", "drv", "b.o"]) :
        PathBuf × PathBuf).2.head? = some "bld" := by
  have h := object_source_map_pure_mapping demoPath ["b.c"]
    [(["usr", "src", "drv", "b.c"], ["bld", "usr", "src", "drv", "b.o"])]
    (by decide) (by decide) rfl
  exact ⟨h.2.1, h.2.2 _ (by simp)⟩

/-- **C4.**  The compile statements produced from a source-object map are in
map order: there are as many statements as pairs, and the `i`-th statement's
input and output are the `i`-th pair's source and object paths. -/
theorem object_build_statements_order (gcc : String → ProcOutput)
    (osm : List (PathBuf × PathBuf)) (stmts : List Ninja.BuildStatement)
    (hok : object_build_statements gcc osm = Except.ok stmts) :
    stmts.length = osm.length ∧
    (∀ i : Nat, stmts[i]?.map Ninja.BuildStatement.input =
      osm[i]?.map (fun p => PathBuf.toStr p.1)) ∧
    (∀ i : Nat, stmts[i]?.map Ninja.BuildStatement.output =
      osm[i]?.map (fun p => PathBuf.toStr p.2)) := by
  have h := object_build_statements_ok hok
  subst h
  refine ⟨List.length_map osm _, fun i => ?_, fun i => ?_⟩
  · rw [List.getElem?_map]
    cases osm[i]? with
    | none => rfl
    | some p => rfl
  · rw [List.getElem?_map]
    cases osm[i]? with
    | none => rfl
    | some p => rfl

/-- **C4 witness.**  The theorem applied to a concrete one-entry map. -/
theorem object_build_statements_order_witness :
    ((object_build_statements gccOk
        [(["usr", "src", "drv", "b.c"],
          ["bld", "usr", "src", "drv", "b.o"])]).toOption.getD []).length =
      [(["usr", "src", "drv", "b.c"],
        ["bld", "usr", "src", "drv", "b.o"])].length ∧
    (((object_build_statements gccOk
        [(["usr", "src", "drv", "b.c"],
          ["bld", "usr", "src", "drv", "b.o"])]).toOption.getD
            [])[0]?).map Ninja.BuildStatement.input =
      ([(["usr", "src", "drv", "b.c"],
         ["bld", "usr", "src", "drv", "b.o"])][0]?).map
        (fun p => PathBuf.toStr p.1) := by
  have h := object_build_statements_order gccOk
    [(["usr", "src", "drv", "b.c"], ["bld", "usr", "src", "drv", "b.o"])]
    ((object_build_statements gccOk
      [(["usr", "src", "drv", "b.c"],
        ["bld", "usr", "src", "drv", "b.o"])]).toOption.getD []) rfl
  exact ⟨h.1, h.2.1 0⟩

/-- The first declaration without the `.c` suffix aborts `object_source_map`
with an error naming it. -/
theorem object_source_map_error_of_bad (base : PathBuf) {src : List String}
    (h : ∃ s ∈ src, strip_suffix_c s = none) :
    ∃ sBad, sBad ∈ src ∧ strip_suffix_c sBad = none ∧
      object_source_map base src =
        Except.error (sBad ++ ": expected c source file") := by
  induction src with
  | nil => simp at h
  | cons s rest ih =>
    cases hs : strip_suffix_c s with
    | none =>
      exact ⟨s, List.mem_cons_self s rest, hs,
        by simp [object_source_map, hs]⟩
    | some pre =>
      obtain ⟨t, ht, htn⟩ := h
      rcases List.mem_cons.mp ht with rfl | htr
      · rw [hs] at htn; cases htn
      · obtain ⟨sBad, hmem, hnone, herr⟩ := ih ⟨t, htr, htn⟩
        exact ⟨sBad, List.mem_cons_of_mem s hmem, hnone,
          by simp [object_source_map, hs, herr]⟩

/-- **C5.**  A description whose source list contains a declaration without
the `.c` suffix emits no statements: `to_ninja` fails with an error naming
an offending declaration. -/
theorem bad_suffix_emission_fails (sp : Spec) (gcc : String → ProcOutput)
    (path : PathBuf)
    (hbad : ∃ s ∈ sp.sources, strip_suffix_c s = none) :
    ∃ sBad, sBad ∈ sp.sources ∧ strip_suffix_c sBad = none ∧
      sp.to_ninja gcc path =
        Except.error (sBad ++ ": expected c source file") := by
  cases sp with
  | Genunix g =>
    simp only [Spec.sources] at hbad ⊢
    obtain ⟨sBad, hmem, hnone, herr⟩ :=
      object_source_map_error_of_bad path hbad
    exact ⟨sBad, hmem, hnone,
      by simp [Spec.to_ninja, Genunix.to_ninja, herr]⟩
  | Module m =>
    simp only [Spec.sources] at hbad ⊢
    obtain ⟨sBad, hmem, hnone, herr⟩ :=
      object_source_map_error_of_bad path hbad
    exact ⟨sBad, hmem, hnone,
      by simp [Spec.to_ninja, Module.to_ninja, herr]⟩

/-- **C5 witness.**  A module declaring `nope.txt` fails with the error
naming it. -/
theorem bad_suffix_emission_fails_witness :
    ∃ sBad, sBad ∈ (Spec.Module demoBadModule).sources ∧
      strip_suffix_c sBad = none ∧
      (Spec.Module demoBadModule).to_ninja gccOk demoPath =
        Except.error (sBad ++ ": expected c source file") :=
  bad_suffix_emission_fails (Spec.Module demoBadModule) gccOk demoPath
    ⟨"nope.txt", by simp [Spec.sources, demoBadModule], rfl⟩

/-- **C6.**  A non-zero compiler exit during header discovery yields an error
carrying the captured diagnostic verbatim; any such error aborts statement
construction, module emission, and the whole run, so no build file is
produced. -/
theorem gcc_failure_aborts :
    (∀ result : ProcOutput, result.success = false →
        header_deps result = Except.error
          ("using gcc to determine header deps failed: " ++
            result.stderrText)) ∧
    (∀ (gcc : String → ProcOutput) (osm : List (PathBuf × PathBuf)),
        (∃ p ∈ osm, ∃ e, header_deps (gcc (PathBuf.toStr p.1)) =
            Except.error e) →
        ∃ e2, object_build_statements gcc osm = Except.error e2 ∧
          ∃ p ∈ osm, header_deps (gcc (PathBuf.toStr p.1)) =
            Except.error e2) ∧
    (∀ (m : Module) (gcc : String → ProcOutput) (path : PathBuf)
        (osm : List (PathBuf × PathBuf)) (e : String),
        object_source_map path m.src = Except.ok osm →
        object_build_statements gcc osm = Except.error e →
        m.to_ninja gcc path = Except.error e) ∧
    (∀ (root : FsTree) (parse : PathBuf → Except String Spec)
        (gcc : String → ProcOutput) (p : PathBuf) (rest : List PathBuf)
        (sp : Spec) (e : String),
        find_build_files ["usr", "src"] root = Except.ok (p :: rest) →
        parse p = Except.ok sp →
        sp.to_ninja gcc p = Except.error e →
        run root parse gcc = Except.error e) := by
  refine ⟨fun r h => by simp [header_deps, h], ?_, ?_, ?_⟩
  · intro gcc osm hex
    induction osm with
    | nil => simp at hex
    | cons q rest ih =>
      obtain ⟨s0, o0⟩ := q
      cases hd : header_deps (gcc (PathBuf.toStr s0)) with
      | error e =>
        exact ⟨e, by simp [object_build_statements, hd],
          (s0, o0), List.mem_cons_self _ _, hd⟩
      | ok deps =>
        obtain ⟨p, hp, e, he⟩ := hex
        rcases List.mem_cons.mp hp with rfl | hpr
        · rw [hd] at he; cases he
        · obtain ⟨e2, herr, p2, hp2, he2⟩ := ih ⟨p, hpr, e, he⟩
          exact ⟨e2, by simp [object_build_statements, hd, herr],
            p2, List.mem_cons_of_mem _ hp2, he2⟩
  · intro m gcc path osm e h1 h2
    simp [Module.to_ninja, h1, h2]
  · intro root parse gcc p rest sp e hf hp ht
    simp [run, hf, collectStatements, hp, ht]

/-- **C6 witness.**  With a compiler oracle that exits non-zero printing
`boom`, the resolver error carries `boom` verbatim and the concrete run
aborts with it, emitting nothing. -/
theorem gcc_failure_aborts_witness :
    header_deps (gccFail "usr/src/b.c") = Except.error
      ("using gcc to determine header deps failed: " ++
        (gccFail "usr/src/b.c").stderrText) ∧
    run demoTree demoParse gccFail =
      Except.error "using gcc to determine header deps failed: boom" :=
  ⟨gcc_failure_aborts.1 (gccFail "usr/src/b.c") rfl,
   gcc_failure_aborts.2.2.2 demoTree demoParse gccFail
     ["usr", "src", "build.toml"] [] (Spec.Module demoModuleNoDeps)
     "using gcc to determine header deps failed: boom" rfl rfl rfl⟩

/-- **C10 witness.**  The theorem applied to the concrete genunix
description, and the no-`ld_genunix` part applied to its emitted
statements. -/
theorem genunix_uses_module_link_rule_witness :
    ((demoGenunix.to_ninja gccOk demoPath).toOption.getD [] ≠ [] ∧
      (((demoGenunix.to_ninja gccOk demoPath).toOption.getD []).getLastD
          default).rule = "ld_kmod") ∧
    ((((Spec.Genunix demoGenunix).to_ninja gccOk demoPath).toOption.getD
        []).getLastD default).rule ≠ "ld_genunix" :=
  ⟨genunix_uses_module_link_rule.1 demoGenunix gccOk demoPath
      ((demoGenunix.to_ninja gccOk demoPath).toOption.getD []) rfl,
   genunix_uses_module_link_rule.2.2.2 (Spec.Genunix demoGenunix) gccOk
      demoPath
      (((Spec.Genunix demoGenunix).to_ninja gccOk demoPath).toOption.getD [])
      ((((Spec.Genunix demoGenunix).to_ninja gccOk demoPath).toOption.getD
        []).getLastD default) rfl (by decide)⟩

end Eos
